import Mathlib

/-!
Verification of the parameter-normalization core of the cosmology library.

The development shallowly embeds the functions of `cosmoprimo/cosmology.py`
that the claims are about:

* `find_conflicts`, `check_params`, `merge_params` (alias/conflict resolver),
* the `compile_params` fragments: the `H0 -> h` normalization, the
  neutrino-hierarchy guards and Newton split, the relativistic-species
  accounting (`N_ur` derivation), and the `z_pk` normalization,
* the in-place `z_pk` list mutation, modelled with an explicit store of
  lists so that aliasing between a base cosmology and its clone is visible.

Exact rational arithmetic (`ℚ`) stands for the source's floating-point
scalars wherever the source only compares and combines decimal literals;
the irrational factor `(4/11)^(-4/3)` and the square roots of the hierarchy
splitter are modelled over `ℝ`.
-/

/-- The conflict groups of `find_conflicts` (cosmology.py, lines 987-997),
one list per tuple of mutually exclusive parameter names. -/
def conflictGroups : List (List String) :=
  [["h", "H0"],
   ["T_cmb", "Omega_g", "omega_g", "Omega0_g"],
   ["Omega_b", "omega_b", "Omega0_b"],
   ["N_ur", "Omega_ur", "omega_ur", "Omega0_ur", "N_eff"],
   ["Omega_cdm", "omega_cdm", "Omega0_cdm", "Omega_c", "omega_c"],
   ["m_ncdm", "Omega_ncdm", "omega_ncdm", "Omega0_ncdm"],
   ["A_s", "ln10^\x7b10\x7dA_s", "sigma8"],
   ["tau_reio", "z_reio"]]

/-- `find_conflicts(name)` (cosmology.py, lines 972-1002): the group
containing `name`, or the empty list when no group contains it. -/
def findConflicts (name : String) : List String :=
  (conflictGroups.find? (fun g => decide (name ∈ g))).getD []

/-- The conflicting names recorded for one input name by `check_params`
(cosmology.py, lines 961-965): the other members of its group that are
also present in the input. -/
def conflictNames (args : List String) (name : String) : List String :=
  (findConflicts name).filter (fun c => decide (c ≠ name) && decide (c ∈ args))

/-- `check_params(args)` (cosmology.py, lines 958-969).  The input mapping
is represented by its (ordered, duplicate-free) list of names; the raised
`CosmologyError` is represented by the offending name together with the
list of names conflicting with it, exactly the content of the message
`[name] + conf[name]`. -/
def checkParams (args : List String) : Except (String × List String) Unit :=
  match args.find? (fun n => !(conflictNames args n).isEmpty) with
  | some n => Except.error (n, conflictNames args n)
  | none => Except.ok ()

/-- The first pass of `merge_params` (cosmology.py, lines 949-952): every
base entry whose name conflicts with some name of the override is popped.
`find_conflicts` returns the whole group of a name, the name itself
included, so a recognized override name also pops the base entry of the
same name. -/
def popConflicting {α : Type} (args : List (String × α)) (names : List String) :
    List (String × α) :=
  args.filter (fun p => !(names.any (fun n => decide (p.1 ∈ findConflicts n))))

/-- `dict.update` (cosmology.py, line 954): entries of `more` replace base
entries of the same name, and new names are appended. -/
def updateDict {α : Type} (args more : List (String × α)) : List (String × α) :=
  args.filter (fun p => !(more.any (fun q => decide (q.1 = p.1)))) ++ more

/-- `merge_params(args, moreargs)` (cosmology.py, lines 927-955): pop the
conflicting base entries, then update with the override. -/
def mergeParams {α : Type} (args more : List (String × α)) : List (String × α) :=
  updateDict (popConflicting args (more.map Prod.fst)) more

/-- Replace or append one entry of a parameter dictionary
(`params[name] = value`). -/
def setKey {α : Type} (args : List (String × α)) (name : String) (v : α) :
    List (String × α) :=
  args.filter (fun p => !(decide (p.1 = name))) ++ [(name, v)]

/-- Remove one entry of a parameter dictionary (`params.pop(name)`). -/
def popKey {α : Type} (args : List (String × α)) (name : String) :
    List (String × α) :=
  args.filter (fun p => !(decide (p.1 = name)))

/-- The `H0 -> h` normalization of `compile_params` (cosmology.py, lines
726-727): if `H0` is present it is popped and `h` is set to `H0 / 100`. -/
def hNormalize (params : List (String × ℚ)) : List (String × ℚ) :=
  match params.lookup ("H0") with
  | some v => setKey (popKey params ("H0")) ("h") (v / 100)
  | none => params

/-- The squared mass splitting `deltam21sq = 7.62e-5` (cosmology.py,
line 842). -/
def deltam21sq : ℚ := 762 / 10000000

/-- The normal-hierarchy squared splitting `deltam31sq = 2.55e-3`
(cosmology.py, line 858). -/
def deltam31sqNormal : ℚ := 255 / 100000

/-- The inverted-hierarchy squared splitting `deltam31sq = -2.43e-3`
(cosmology.py, line 866). -/
def deltam31sqInverted : ℚ := -243 / 100000

/-- The normal-hierarchy guard (cosmology.py, line 859): `True` exactly
when the `ValueError` is raised, i.e. when `sum_ncdm**2 <
deltam21sq + deltam31sq`. -/
def normalGuardFails (M : ℚ) : Bool :=
  decide (M ^ 2 < deltam21sq + deltam31sqNormal)

/-- The inverted-hierarchy guard (cosmology.py, line 867): `True` exactly
when the `ValueError` is raised, i.e. when `sum_ncdm**2 <
-deltam31sq + deltam21sq - deltam31sq`. -/
def invertedGuardFails (M : ℚ) : Bool :=
  decide (M ^ 2 < -deltam31sqInverted + deltam21sq - deltam31sqInverted)

/-- The degenerate-hierarchy split (cosmology.py, line 874): three equal
masses `sum_ncdm / 3`. -/
def degenerateSplit (M : ℚ) : List ℚ :=
  [M / 3, M / 3, M / 3]

/-- Sum of a triple of masses `(m1, m2, m3)`. -/
def tripleSum (m : ℝ × ℝ × ℝ) : ℝ :=
  m.1 + m.2.1 + m.2.2

/-- One iteration of the hierarchy Newton solver `solve_newton`
(cosmology.py, lines 849-854): update `m1` by the Newton step with
derivative `1 + m1/m2 + m1/m3`, then recompute `m2 = sqrt(m1^2 +
deltam21sq)` and `m3 = sqrt(m1^2 + deltam31sq)`. -/
noncomputable def hierStep (d21 d31 M : ℝ) (m : ℝ × ℝ × ℝ) : ℝ × ℝ × ℝ :=
  let dsdm1 := 1 + m.1 / m.2.1 + m.1 / m.2.2
  let m1 := m.1 + (M - tripleSum m) / dsdm1
  (m1, Real.sqrt (m1 ^ 2 + d21), Real.sqrt (m1 ^ 2 + d31))

open scoped Classical in
/-- The hierarchy Newton loop (cosmology.py, lines 844-855): iterate
`hierStep` while `|sum_ncdm - sum_check| > 1e-15`.  The source loop is
unbounded; the embedding adds explicit fuel and returns `none` when the
fuel runs out before the stopping criterion is reached, so `some` results
are exactly the terminating runs of the source loop. -/
noncomputable def hierNewton (d21 d31 M : ℝ) : ℕ → (ℝ × ℝ × ℝ) → Option (ℝ × ℝ × ℝ)
  | 0, m => if |M - tripleSum m| ≤ 1 / 10 ^ 15 then some m else none
  | n + 1, m =>
      if |M - tripleSum m| ≤ 1 / 10 ^ 15 then some m
      else hierNewton d21 d31 M n (hierStep d21 d31 M m)

/-- The non-relativistic mass threshold `m_massive = 0.00017`
(cosmology.py, line 890). -/
def mMassive : ℚ := 17 / 100000

/-- `sum(T_ncdm[mask_m]**4)` (cosmology.py, lines 893 and 897): the sum of
the fourth powers of the temperature ratios of the species whose mass
exceeds the threshold. -/
def sumT4 (ms Ts : List ℚ) : ℚ :=
  (((ms.zip Ts).filter (fun p => decide (mMassive < p.1))).map (fun p => p.2 ^ 4)).sum

/-- `m_ncdm[mask_m].tolist()` (cosmology.py, line 901): the masses kept
after removing the species at or below the threshold. -/
def massiveList (ms : List ℚ) : List ℚ :=
  ms.filter (fun m => decide (mMassive < m))

/-- The factor `(4/11)^(-4/3)` of the `N_ur` derivation (cosmology.py,
line 897). -/
noncomputable def nurFactor : ℝ :=
  ((4 : ℝ) / 11) ^ (-((4 : ℝ) / 3))

/-- The real value of a derived `N_ur`, represented symbolically by the
pair of its rational parts: `nurValue a s = a - s * (4/11)^(-4/3)`.  A
directly supplied `N_ur` is the pair `(N_ur, 0)`; a derived one is
`(N_eff, sum(T_ncdm[mask_m]**4))`. -/
noncomputable def nurValue (a s : ℚ) : ℝ :=
  (a : ℝ) - (s : ℝ) * nurFactor

/-- Decidable form of the sign test `N_ur < 0` of cosmology.py, line 898:
since the cube is strictly monotone and `((4/11)^(-4/3))^3 = (11/4)^4`
exactly, `a - s*(4/11)^(-4/3) < 0` holds iff `a^3 < s^3 * (11/4)^4`, a
rational comparison. -/
def nurIsNeg (a s : ℚ) : Bool :=
  decide (a ^ 3 < s ^ 3 * (11 / 4 : ℚ) ^ 4)

/-- The error message of cosmology.py, line 899. -/
def nurErrMsg : String :=
  "N_ur and m_ncdm must result in a number of relativistic neutrino species greater than or equal to zero."

/-- The relativistic-species accounting of `compile_params`
(cosmology.py, lines 881-905).  `nurOpt` is `some nur` when `N_ur` was
supplied directly or already derived from an explicit `Omega_ur`
(lines 881-886), and `none` otherwise.  The result carries the canonical
`N_ur` symbolically as a pair `(a, s)` with value `nurValue a s`, together
with the canonical mass list: when `N_ur` is given the mass list is passed
through unchanged; when it is derived, the species at or below the
threshold are removed, `N_ur = N_eff - sum(T_ncdm[mask_m]**4) *
(4/11)^(-4/3)`, and a negative result is a fatal error. -/
def nurAccounting (nurOpt : Option ℚ) (Neff : ℚ) (ms Ts : List ℚ) :
    Except String ((ℚ × ℚ) × List ℚ) :=
  match nurOpt with
  | some nur => Except.ok ((nur, 0), ms)
  | none =>
      let s := sumT4 ms Ts
      if nurIsNeg Neff s then Except.error nurErrMsg
      else Except.ok ((Neff, s), massiveList ms)

/-- Modelled from the spec: the default neutrino-to-photon temperature
ratio `constants.TNCDM` of the missing `constants` module ("default
temperature ratio"); the spec fixes no numeric value, so the value of the
reference implementations, `0.71611`, is used.  Every theorem below that
depends on it only uses that it is positive, and holds for any positive
ratio. -/
def TNCDM : ℚ := 71611 / 100000

/-- Modelled from the spec: the default effective number of neutrino
species `constants.NEFF = 3.044` of the missing `constants` module
("`N_eff` (typically kept at 3.044...)"). -/
def NEFF : ℚ := 761 / 250

/-- A parameter value of the clone/mutation model: either a scalar or a
reference into the store of lists.  Python list values are references, so
copying a dictionary shares the pointed-to lists. -/
inductive PVal where
  | num (q : ℚ)
  | ref (r : ℕ)
deriving DecidableEq

/-- The store of list objects: index `r` holds the current contents of
list object `r`. -/
abbrev Store : Type := List (List ℚ)

/-- A parameter dictionary whose values may reference store lists. -/
abbrev RDict : Type := List (String × PVal)

/-- Contents of list object `r` (empty for a dangling reference). -/
def getList (σ : Store) (r : ℕ) : List ℚ :=
  List.getD σ r []

/-- Overwrite the contents of list object `r` in place. -/
def setList (σ : Store) (r : ℕ) (l : List ℚ) : Store :=
  List.set σ r l

/-- Allocate a fresh list object, returning the new store and the new
reference. -/
def alloc (σ : Store) (l : List ℚ) : Store × ℕ :=
  (σ ++ [l], σ.length)

/-- The `z_pk` normalization of `compile_params` (cosmology.py, lines
908-918), with the store made explicit.  A missing `z_pk` is replaced by a
fresh default list (`interpolator.get_default_z_callable` is not under
`src/`; modelled from the spec as an arbitrary default list `defZ`, built
fresh on each call); a scalar is wrapped into a fresh singleton list; in
all cases `0` is appended when absent — for a list value this appends to
the referenced list object IN PLACE, which is the only store mutation of
the compilation pipeline. -/
def zpkStep (σ : Store) (d : RDict) (defZ : List ℚ) : Store × RDict :=
  match List.lookup ("z_pk") d with
  | some (PVal.ref r) =>
      if (0 : ℚ) ∈ getList σ r then (σ, d)
      else (setList σ r (getList σ r ++ [0]), d)
  | some (PVal.num q) =>
      let l := if q = 0 then [q] else [q, 0]
      let a := alloc σ l
      (a.1, setKey d ("z_pk") (PVal.ref a.2))
  | none =>
      let l := if (0 : ℚ) ∈ defZ then defZ else defZ ++ [0]
      let a := alloc σ l
      (a.1, setKey d ("z_pk") (PVal.ref a.2))

/-- The parameter handling of `Cosmology.clone` (cosmology.py, lines
590-592): `compile_params(merge_params(self._params.copy(), params))`.
The dictionary copy is shallow, so the merged dictionary shares the base's
list objects; of the subsequent compilation only the `z_pk` step touches
the store (every other step reads, copies with `list(...)`, or rebinds),
so the clone's effect on the store is exactly `zpkStep` applied to the
merged dictionary. -/
def cloneModel (σ : Store) (base override : RDict) (defZ : List ℚ) :
    Store × RDict :=
  zpkStep σ (mergeParams base override) defZ

/-- The factor `(4/11)^(-4/3)` is positive. -/
theorem nurFactor_pos : 0 < nurFactor :=
  Real.rpow_pos_of_pos (by norm_num) _

/-- The cube of `(4/11)^(-4/3)` is exactly `(11/4)^4`. -/
theorem nurFactor_cube : nurFactor ^ (3 : ℕ) = ((11 : ℝ) / 4) ^ (4 : ℕ) := by
  have h0 : (0 : ℝ) ≤ 4 / 11 := by norm_num
  rw [nurFactor, ← Real.rpow_natCast (((4 : ℝ) / 11) ^ (-((4 : ℝ) / 3))) 3,
    ← Real.rpow_mul h0]
  have h2 : (-((4 : ℝ) / 3)) * ((3 : ℕ) : ℝ) = ((-4 : ℤ) : ℝ) := by norm_num
  rw [h2, Real.rpow_intCast]
  norm_num

/-- The sign test on the derived `N_ur` is equivalent to the rational
comparison used by `nurIsNeg`. -/
theorem nurValue_neg_iff (a s : ℚ) :
    nurValue a s < 0 ↔ a ^ 3 < s ^ 3 * ((11 : ℚ) / 4) ^ 4 := by
  rw [nurValue, sub_neg]
  have hm : StrictMono (fun x : ℝ => x ^ (3 : ℕ)) :=
    Odd.strictMono_pow (Nat.odd_iff.mpr rfl)
  constructor
  · intro h
    have h3 := hm.lt_iff_lt.mpr h
    simp only [mul_pow, nurFactor_cube] at h3
    have h4 : ((a ^ 3 : ℚ) : ℝ) < ((s ^ 3 * ((11 : ℚ) / 4) ^ 4 : ℚ) : ℝ) := by
      push_cast
      exact h3
    exact_mod_cast h4
  · intro h
    have h4 : ((a ^ 3 : ℚ) : ℝ) < ((s ^ 3 * ((11 : ℚ) / 4) ^ 4 : ℚ) : ℝ) := by
      exact_mod_cast h
    push_cast at h4
    have h3 : ((a : ℝ)) ^ (3 : ℕ) < ((s : ℝ) * nurFactor) ^ (3 : ℕ) := by
      rw [mul_pow, nurFactor_cube]
      exact h4
    exact hm.lt_iff_lt.mp h3

/-- The boolean guard of the accounting agrees with the real sign test. -/
theorem nurIsNeg_iff (a s : ℚ) : nurIsNeg a s = true ↔ nurValue a s < 0 := by
  rw [nurIsNeg, decide_eq_true_iff, nurValue_neg_iff]

/-- Casting the rational sum of fourth powers to the reals distributes
over the list. -/
theorem ratCast_sum_pow4 (l : List (ℚ × ℚ)) :
    (((l.map (fun p => p.2 ^ 4)).sum : ℚ) : ℝ)
      = (l.map (fun p => ((p.2 : ℚ) : ℝ) ^ 4)).sum := by
  induction l with
  | nil => simp
  | cons x xs ih =>
      simp only [List.map_cons, List.sum_cons, Rat.cast_add, Rat.cast_pow, ih]

/-- Evaluation of the single-species subtraction term: a `0.06` eV species
exceeds the threshold, so the term is the fourth power of its temperature
ratio. -/
theorem sumT4_single (T : ℚ) : sumT4 [3/50] [T] = T ^ 4 := by
  rw [sumT4]
  rw [show List.zip [(3 : ℚ)/50] [T] = [((3 : ℚ)/50, T)] from rfl]
  rw [List.filter_cons]
  rw [show (decide (mMassive < ((3 : ℚ)/50, T).1)) = true by
    rw [mMassive]; norm_num]
  simp

/-- Accounting run for the C1 scenario: `N_eff = 3.044`, one massive
species of `0.06` eV at the default temperature ratio, no explicit
`N_ur`. -/
theorem nurAccounting_c1_eval :
    nurAccounting none NEFF [3/50] [TNCDM] =
      Except.ok ((NEFF, TNCDM ^ 4), [3/50]) := by
  have h1 : sumT4 [3/50] [TNCDM] = TNCDM ^ 4 := by
    norm_num [sumT4, mMassive, List.filter]
  have h2 : nurIsNeg NEFF (TNCDM ^ 4) = false := by
    rw [nurIsNeg, decide_eq_false_iff_not, TNCDM, NEFF]
    norm_num
  have h3 : massiveList [3/50] = [3/50] := by
    norm_num [massiveList, mMassive, List.filter]
  simp [nurAccounting, h1, h2, h3]

/-- A derived `N_ur` with a positive subtraction term is strictly below
`N_eff`. -/
theorem nurValue_lt_of_pos (a s : ℚ) (hs : 0 < s) : nurValue a s < (a : ℝ) := by
  rw [nurValue, sub_lt_self_iff]
  exact mul_pos (by exact_mod_cast hs) nurFactor_pos

/-- Claim C1 (counterexample): with `N_eff = 3.044`, one massive species
of `0.06` eV at the default temperature ratio and no explicit `N_ur`, the
species, whose mass exceeds the threshold `0.00017`, IS included in the
sum subtracted from `N_eff`: the derived `N_ur` is
`3.044 - TNCDM^4 * (4/11)^(-4/3)`, which is strictly below `3.044`, so it
does not equal `3.044` as the claim states. -/
theorem derived_nur_not_neff_cex :
    nurAccounting none NEFF [3/50] [TNCDM] =
      Except.ok ((NEFF, TNCDM ^ 4), [3/50])
  ∧ nurValue NEFF (TNCDM ^ 4) < (NEFF : ℝ)
  ∧ (TNCDM ^ 4 : ℚ) ≠ 0 := by
  refine ⟨nurAccounting_c1_eval, nurValue_lt_of_pos _ _ (by norm_num [TNCDM]), by norm_num [TNCDM]⟩

/-- Claim C1 (amended): with `N_eff = 3.044`, one massive species of
`0.06` eV and no explicit `N_ur`, the species exceeds the non-relativistic
threshold and is therefore INCLUDED in the sum subtracted from `N_eff`
(and kept in the massive list): for every positive temperature ratio `T`
the subtraction term is `T^4` and the derived `N_ur` is strictly below
`3.044`; at the default ratio the compilation returns
`N_ur = 3.044 - TNCDM^4 * (4/11)^(-4/3)` with the species retained. -/
theorem derived_nur_subtracts_massive_species :
    (∀ T : ℚ, 0 < T →
        sumT4 [3/50] [T] = T ^ 4 ∧ nurValue NEFF (T ^ 4) < (NEFF : ℝ))
  ∧ nurAccounting none NEFF [3/50] [TNCDM] =
      Except.ok ((NEFF, TNCDM ^ 4), [3/50]) := by
  refine ⟨fun T hT => ⟨sumT4_single T, ?_⟩, nurAccounting_c1_eval⟩
  exact nurValue_lt_of_pos _ _ (by positivity)

/-- Witness for the amended C1 theorem at the default temperature
ratio. -/
theorem derived_nur_subtracts_massive_species_witness :
    (0 : ℚ) < TNCDM ∧
      (sumT4 [3/50] [TNCDM] = TNCDM ^ 4 ∧
        nurValue NEFF (TNCDM ^ 4) < (NEFF : ℝ)) :=
  ⟨by norm_num [TNCDM],
    derived_nur_subtracts_massive_species.1 TNCDM (by norm_num [TNCDM])⟩

/-- Claim C3: when neither `N_ur` nor an ultra-relativistic density
fraction is supplied, the accounting returns
`N_ur = N_eff - Σ T_i^4 * (4/11)^(-4/3)` with the sum running exactly over
the species whose mass exceeds `0.00017`, removes the species at or below
the threshold from the massive list, and fails with the fatal error
message exactly when the derived `N_ur` is negative. -/
theorem nur_derivation_correct (Neff : ℚ) (ms Ts : List ℚ) :
    (0 ≤ nurValue Neff (sumT4 ms Ts) →
      nurAccounting none Neff ms Ts =
        Except.ok ((Neff, sumT4 ms Ts), massiveList ms))
  ∧ (nurValue Neff (sumT4 ms Ts) < 0 →
      nurAccounting none Neff ms Ts = Except.error nurErrMsg)
  ∧ nurValue Neff (sumT4 ms Ts)
      = (Neff : ℝ) -
        (((ms.zip Ts).filter (fun p => decide (mMassive < p.1))).map
          (fun p => ((p.2 : ℚ) : ℝ) ^ 4)).sum * nurFactor := by
  refine ⟨?_, ?_, ?_⟩
  · intro h
    have hb : nurIsNeg Neff (sumT4 ms Ts) = false := by
      rw [← Bool.not_eq_true, nurIsNeg_iff]
      exact not_lt.mpr h
    simp [nurAccounting, hb]
  · intro h
    have hb : nurIsNeg Neff (sumT4 ms Ts) = true := (nurIsNeg_iff _ _).mpr h
    simp [nurAccounting, hb]
  · rw [nurValue, sumT4, ratCast_sum_pow4]

/-- Witness for the C3 theorem: a sub-threshold and an above-threshold
species at `N_eff = 3.044`, exercising the non-error branch. -/
theorem nur_derivation_correct_witness :
    0 ≤ nurValue NEFF (sumT4 [1/10000, 3/50] [7/10, 7/10]) ∧
      nurAccounting none NEFF [1/10000, 3/50] [7/10, 7/10] =
        Except.ok ((NEFF, sumT4 [1/10000, 3/50] [7/10, 7/10]),
          massiveList [1/10000, 3/50]) := by
  have h0 : 0 ≤ nurValue NEFF (sumT4 [1/10000, 3/50] [7/10, 7/10]) := by
    have hb : nurIsNeg NEFF (sumT4 [1/10000, 3/50] [7/10, 7/10]) = false := by
      rw [nurIsNeg, decide_eq_false_iff_not, NEFF]
      norm_num [sumT4, mMassive, List.filter]
    have := (nurIsNeg_iff NEFF (sumT4 [1/10000, 3/50] [7/10, 7/10])).not
    rw [hb] at this
    simp only [Bool.false_eq_true, not_lt] at this
    exact this.mp (by simp)
  exact ⟨h0, (nur_derivation_correct NEFF [1/10000, 3/50] [7/10, 7/10]).1 h0⟩

/-- Claim C4 (counterexample): a raw input that supplies `N_ur` explicitly
together with a negative per-species mass compiles successfully — the
explicit-`N_ur` branch passes the mass list through without any check —
so the canonical mapping lists a negative neutrino rest mass. -/
theorem negative_mass_passthrough_cex :
    nurAccounting (some 2) NEFF [-(1/10)] [7/10] =
      Except.ok ((2, 0), [-(1/10)])
  ∧ (-(1/10) : ℚ) < 0 :=
  ⟨rfl, by norm_num⟩

/-- Claim C4 (amended): on the derived-`N_ur` path every mass kept in the
canonical list exceeds the threshold `0.00017` and is in particular
nonnegative (with an explicit `N_ur` a supplied negative mass is passed
through unchecked — see the counterexample); the boundary input
`M = 0.0592` passes the normal-hierarchy guard, but every splitter
configuration with `m1 ≥ 0` has mass sum strictly above `0.0592`, so the
exact solution at the boundary has `m1 < 0` (the negative mass is then
removed by the accounting on the derived path). -/
theorem masses_nonneg_on_derived_path :
    (∀ (Neff : ℚ) (ms Ts : List ℚ) (a s : ℚ) (ml : List ℚ),
        nurAccounting none Neff ms Ts = Except.ok ((a, s), ml) →
        ∀ m ∈ ml, 0 ≤ m)
  ∧ normalGuardFails (37/625) = false
  ∧ (∀ m1 : ℝ, 0 ≤ m1 →
      (37/625 : ℝ) < m1 + Real.sqrt (m1 ^ 2 + 762/10000000)
        + Real.sqrt (m1 ^ 2 + 255/100000)) := by
  refine ⟨?_, ?_, ?_⟩
  · intro Neff ms Ts a s ml h m hm
    rw [nurAccounting] at h
    by_cases hb : nurIsNeg Neff (sumT4 ms Ts) = true
    · simp [hb] at h
    · rw [Bool.not_eq_true] at hb
      simp only [hb, Bool.false_eq_true, if_false, Except.ok.injEq,
        Prod.mk.injEq] at h
      rw [← h.2, massiveList, List.mem_filter] at hm
      have : mMassive < m := of_decide_eq_true hm.2
      have h0 : (0 : ℚ) < mMassive := by norm_num [mMassive]
      exact le_of_lt (lt_trans h0 this)
  · rw [normalGuardFails, decide_eq_false_iff_not, deltam21sq, deltam31sqNormal]
    norm_num
  · intro m1 hm1
    have h1 : (87292 : ℝ)/10000000 < Real.sqrt (m1 ^ 2 + 762/10000000) := by
      rw [Real.lt_sqrt (by norm_num)]
      nlinarith [sq_nonneg m1]
    have h2 : (50497 : ℝ)/1000000 < Real.sqrt (m1 ^ 2 + 255/100000) := by
      rw [Real.lt_sqrt (by norm_num)]
      nlinarith [sq_nonneg m1]
    linarith

/-- Witness for the amended C4 theorem. -/
theorem masses_nonneg_on_derived_path_witness :
    (0 : ℚ) ≤ 3/50 ∧
      (37/625 : ℝ) < 0 + Real.sqrt ((0 : ℝ) ^ 2 + 762/10000000)
        + Real.sqrt ((0 : ℝ) ^ 2 + 255/100000) := by
  constructor
  · have heq : nurAccounting none NEFF [3/50] [7/10] =
        Except.ok ((NEFF, sumT4 [3/50] [7/10]), massiveList [3/50]) := by
      have hb : nurIsNeg NEFF (sumT4 [3/50] [7/10]) = false := by
        rw [nurIsNeg, decide_eq_false_iff_not, NEFF]
        norm_num [sumT4, mMassive, List.filter]
      simp [nurAccounting, hb]
    have hmem : (3/50 : ℚ) ∈ massiveList [3/50] := by
      norm_num [massiveList, mMassive, List.filter]
    exact masses_nonneg_on_derived_path.1 NEFF [3/50] [7/10] NEFF
      (sumT4 [3/50] [7/10]) (massiveList [3/50]) heq (3/50) hmem
  · exact masses_nonneg_on_derived_path.2.2 0 le_rfl

/-- Claim C2: the inverted-hierarchy guard accepts `M = 0.09` — the
rejection condition `M^2 < -Δm31 + Δm21 - Δm31 = 0.0049362` is not met at
`0.09^2 = 0.0081` — so no unphysical-input error is raised there, although
`0.09` is below the `0.0978` minimum stated by the claim and by the code's
own error message; the Newton iteration then cannot terminate, because
every configuration `(m1, sqrt(m1^2+Δm21), sqrt(m1^2+Δm31))` with a real
(nonnegative-radicand) third mass sums to more than `0.099`. -/
theorem inverted_guard_accepts_009 :
    invertedGuardFails (9/100) = false
  ∧ ((9/100 : ℚ) < 978/10000)
  ∧ (∀ m1 : ℝ, (243 : ℝ)/100000 ≤ m1 ^ 2 → 0 ≤ m1 →
      (99 : ℝ)/1000 < m1 + Real.sqrt (m1 ^ 2 + 762/10000000)
        + Real.sqrt (m1 ^ 2 - 243/100000)) := by
  refine ⟨?_, by norm_num, ?_⟩
  · rw [invertedGuardFails, decide_eq_false_iff_not, deltam21sq,
      deltam31sqInverted]
    norm_num
  · intro m1 hsq hm1
    have h1 : (492 : ℝ)/10000 < m1 := by nlinarith
    have h2 : (5006 : ℝ)/100000 < Real.sqrt (m1 ^ 2 + 762/10000000) := by
      rw [Real.lt_sqrt (by norm_num)]
      nlinarith
    have h3 : 0 ≤ Real.sqrt (m1 ^ 2 - 243/100000) := Real.sqrt_nonneg _
    linarith

/-- Witness for the C2 theorem at `m1 = 0.05`. -/
theorem inverted_guard_accepts_009_witness :
    ((243 : ℝ)/100000 ≤ (5/100 : ℝ) ^ 2 ∧ (0 : ℝ) ≤ 5/100) ∧
      (99 : ℝ)/1000 < 5/100 + Real.sqrt ((5/100 : ℝ) ^ 2 + 762/10000000)
        + Real.sqrt ((5/100 : ℝ) ^ 2 - 243/100000) :=
  ⟨⟨by norm_num, by norm_num⟩,
    inverted_guard_accepts_009.2.2 (5/100) (by norm_num) (by norm_num)⟩

/-- Claim C7: every terminating run of the hierarchy Newton loop (the
source loop is unbounded; `some` results are its terminating runs) returns
a triple of masses whose sum is within the stopping tolerance `1e-15` of
`M`, hence within `1e-10`; the degenerate split returns exactly three
masses summing to `M` exactly. -/
theorem hierarchy_sum_tolerance :
    (∀ (d21 d31 M : ℝ) (fuel : ℕ) (m0 res : ℝ × ℝ × ℝ),
        hierNewton d21 d31 M fuel m0 = some res →
        |M - tripleSum res| ≤ 1 / 10 ^ 10)
  ∧ (∀ M : ℚ, (degenerateSplit M).length = 3 ∧ (degenerateSplit M).sum = M) := by
  constructor
  · intro d21 d31 M fuel
    induction fuel with
    | zero =>
        intro m0 res h
        rw [hierNewton] at h
        split at h
        · cases h
          linarith [show (1 : ℝ) / 10 ^ 15 ≤ 1 / 10 ^ 10 by norm_num,
            (by assumption : |M - tripleSum m0| ≤ 1 / 10 ^ 15)]
        · cases h
    | succ n ih =>
        intro m0 res h
        rw [hierNewton] at h
        split at h
        · cases h
          linarith [show (1 : ℝ) / 10 ^ 15 ≤ 1 / 10 ^ 10 by norm_num,
            (by assumption : |M - tripleSum m0| ≤ 1 / 10 ^ 15)]
        · exact ih _ _ h
  · intro M
    refine ⟨rfl, ?_⟩
    rw [degenerateSplit]
    simp
    ring

/-- Witness for the C7 theorem: a run that stops immediately because the
initial triple already matches the sum. -/
theorem hierarchy_sum_tolerance_witness :
    hierNewton (762/10000000) (255/100000) (6/100 : ℝ) 0
        (1/100, 2/100, 3/100) = some (1/100, 2/100, 3/100)
  ∧ |(6/100 : ℝ) - tripleSum (1/100, 2/100, 3/100)| ≤ 1 / 10 ^ 10 := by
  have heq : hierNewton (762/10000000) (255/100000) (6/100 : ℝ) 0
      (1/100, 2/100, 3/100) = some (1/100, 2/100, 3/100) := by
    rw [hierNewton, if_pos]
    rw [tripleSum]
    norm_num
  exact ⟨heq, hierarchy_sum_tolerance.1 _ _ _ _ _ _ heq⟩

/-- Claim C5: merging first drops from the base every entry whose name
belongs to the conflict group of some override name (a recognized name's
group contains the name itself), then applies the override; concretely, a
base holding `H0 = 70` merged with an override holding `h = 0.72` and run
through the `H0 -> h` normalization of the compiler yields canonical
`h = 0.72` with no `H0` entry remaining. -/
theorem merge_conflict_precedence :
    (∀ (args more : List (String × ℚ)) (p : String × ℚ),
        p ∈ mergeParams args more ↔
          p ∈ more ∨
            (p ∈ args ∧ (∀ n ∈ more.map Prod.fst, p.1 ∉ findConflicts n) ∧
              p.1 ∉ more.map Prod.fst))
  ∧ (hNormalize (mergeParams [(("H0"), (70 : ℚ))]
      [(("h"), (18/25 : ℚ))])).lookup ("h") = some (18/25)
  ∧ (hNormalize (mergeParams [(("H0"), (70 : ℚ))]
      [(("h"), (18/25 : ℚ))])).lookup ("H0") = none
  ∧ (hNormalize [(("H0"), (70 : ℚ))]).lookup ("h") = some (7/10) := by
  refine ⟨?_, rfl, rfl, by norm_num [hNormalize, popKey, setKey, List.lookup, List.filter]⟩
  intro args more p
  rw [mergeParams, updateDict, popConflicting]
  simp only [List.mem_append, List.mem_filter, List.any_eq_true,
    Bool.not_eq_true', List.any_eq_false, decide_eq_false_iff_not,
    decide_eq_true_eq, List.mem_map]
  push_neg
  tauto

/-- Claim C6: whenever the raw input contains two distinct names of the
same conflict group, validation returns a conflict error; the error names
an offending input name `n` together with exactly the other present
members of its group (every name it lists is present and conflicting, and
every present conflicting name is listed), and no `ok` result — hence no
canonical mapping — is produced. -/
theorem check_params_conflict_error (args : List String) (n1 n2 : String)
    (h1 : n1 ∈ args) (h2 : n2 ∈ args) (hne : n1 ≠ n2)
    (hg : n2 ∈ findConflicts n1) :
    ∃ n confs, checkParams args = Except.error (n, confs)
      ∧ n ∈ args ∧ confs ≠ []
      ∧ (∀ c ∈ confs, c ∈ args ∧ c ∈ findConflicts n ∧ c ≠ n)
      ∧ (∀ m ∈ args, m ∈ findConflicts n → m ≠ n → m ∈ confs)
      ∧ (∀ u, checkParams args ≠ Except.ok u) := by
  have hmem : n2 ∈ conflictNames args n1 := by
    rw [conflictNames, List.mem_filter]
    refine ⟨hg, ?_⟩
    simp [hne.symm, h2]
  have hp : (!(conflictNames args n1).isEmpty) = true := by
    cases hcn : conflictNames args n1 with
    | nil => rw [hcn] at hmem; cases hmem
    | cons a l => simp [List.isEmpty]
  cases hf : args.find? (fun n => !(conflictNames args n).isEmpty) with
  | none =>
      exfalso
      rw [List.find?_eq_none] at hf
      exact (hf n1 h1) hp
  | some n =>
      have hnm := List.mem_of_find?_eq_some hf
      have hnp := List.find?_some hf
      refine ⟨n, conflictNames args n, ?_, hnm, ?_, ?_, ?_, ?_⟩
      · rw [checkParams, hf]
      · intro hnil
        rw [hnil] at hnp
        simp at hnp
      · intro c hc
        rw [conflictNames, List.mem_filter] at hc
        obtain ⟨hcf, hb⟩ := hc
        simp only [Bool.and_eq_true, decide_eq_true_eq] at hb
        exact ⟨hb.2, hcf, hb.1⟩
      · intro m hm hmf hmn
        rw [conflictNames, List.mem_filter]
        refine ⟨hmf, ?_⟩
        simp [hmn, hm]
      · intro u hu
        rw [checkParams, hf] at hu
        cases hu

/-- Witness for the C6 theorem: the concrete input supplying both `h` and
`H0`. -/
theorem check_params_conflict_error_witness :
    (("h" : String) ∈ (["h", "H0"] : List String)
      ∧ ("H0" : String) ∈ (["h", "H0"] : List String)
      ∧ ("H0" : String) ∈ findConflicts ("h"))
  ∧ (∃ n confs, checkParams ["h", "H0"] = Except.error (n, confs)
      ∧ n ∈ (["h", "H0"] : List String) ∧ confs ≠ []
      ∧ (∀ c ∈ confs, c ∈ (["h", "H0"] : List String)
          ∧ c ∈ findConflicts n ∧ c ≠ n)
      ∧ (∀ m ∈ (["h", "H0"] : List String),
          m ∈ findConflicts n → m ≠ n → m ∈ confs)
      ∧ (∀ u, checkParams ["h", "H0"] ≠ Except.ok u)) := by
  refine ⟨⟨by simp, by simp, ?_⟩, ?_⟩
  · rw [show findConflicts ("h") = ["h", "H0"] from rfl]
    simp
  · exact check_params_conflict_error ["h", "H0"] "h" "H0" (by simp) (by simp)
      (by simp) (by rw [show findConflicts ("h") = ["h", "H0"] from rfl]; simp)

/-- A filtered dictionary holds no entry for the filtered-out key. -/
theorem lookup_filter_ne {α : Type} (d : List (String × α)) (k : String) :
    List.lookup k (d.filter (fun p => !(decide (p.1 = k)))) = none := by
  rw [List.lookup_eq_none_iff]
  intro p hp
  rw [List.mem_filter] at hp
  have hne : ¬(p.1 = k) := by simpa using hp.2
  simp only [bne_iff_ne]
  exact fun h => hne h.symm

/-- Setting a key makes lookup of that key return the new value. -/
theorem lookup_setKey {α : Type} (d : List (String × α)) (k : String) (v : α) :
    List.lookup k (setKey d k v) = some v := by
  rw [setKey, List.lookup_append, lookup_filter_ne]
  simp

/-- Appending a fresh list to the store does not change existing lists. -/
theorem getList_append_lt (σ : Store) (l : List ℚ) (r : ℕ) (hr : r < σ.length) :
    getList (σ ++ [l]) r = getList σ r := by
  simp [getList, List.getElem?_append_left hr]

/-- The freshly appended list is found at the fresh index. -/
theorem getList_append_self (σ : Store) (l : List ℚ) :
    getList (σ ++ [l]) σ.length = l := by
  simp [getList, List.getElem?_append_right (le_refl σ.length)]

/-- Overwriting one list leaves the others unchanged. -/
theorem getList_set_ne (σ : Store) (l : List ℚ) (r r2 : ℕ) (hne : r2 ≠ r) :
    getList (setList σ r2 l) r = getList σ r := by
  simp [getList, setList, List.getElem?_set_ne hne]

/-- Overwriting one list stores the new contents. -/
theorem getList_set_self (σ : Store) (l : List ℚ) (r : ℕ) (hr : r < σ.length) :
    getList (setList σ r l) r = l := by
  simp [getList, setList, List.getElem?_set_self hr]

/-- Claim C9: after the `z_pk` normalization the dictionary always holds a
`z_pk` list and that list contains redshift `0`, whatever the input
dictionary and whatever default list is used (the only requirement is that
a supplied `z_pk` reference points into the store). -/
theorem zpk_contains_zero (σ : Store) (d : RDict) (defZ : List ℚ)
    (hwf : ∀ r, List.lookup ("z_pk") d = some (PVal.ref r) → r < σ.length) :
    ∃ r, List.lookup ("z_pk") ((zpkStep σ d defZ).2) = some (PVal.ref r)
      ∧ (0 : ℚ) ∈ getList (zpkStep σ d defZ).1 r := by
  cases hl : List.lookup ("z_pk") d with
  | none =>
      refine ⟨σ.length, ?_, ?_⟩
      · simp only [zpkStep, hl, alloc]
        exact lookup_setKey d ("z_pk") (PVal.ref σ.length)
      · simp only [zpkStep, hl, alloc]
        rw [getList_append_self]
        by_cases h0 : (0 : ℚ) ∈ defZ
        · simp [h0]
        · simp [h0]
  | some v =>
      cases v with
      | num q =>
          refine ⟨σ.length, ?_, ?_⟩
          · simp only [zpkStep, hl, alloc]
            exact lookup_setKey d ("z_pk") (PVal.ref σ.length)
          · simp only [zpkStep, hl, alloc]
            rw [getList_append_self]
            by_cases h0 : q = 0
            · simp [h0]
            · simp [h0]
      | ref r =>
          refine ⟨r, ?_, ?_⟩
          · by_cases h0 : (0 : ℚ) ∈ getList σ r
            · simp only [zpkStep, hl, if_pos h0]
            · simp only [zpkStep, hl, if_neg h0]
          · by_cases h0 : (0 : ℚ) ∈ getList σ r
            · simp only [zpkStep, hl, if_pos h0]
              exact h0
            · simp only [zpkStep, hl, if_neg h0]
              rw [getList_set_self σ _ r (hwf r hl)]
              simp

/-- Witness for the C9 theorem: a dictionary supplying `z_pk` as a list
without `0`. -/
theorem zpk_contains_zero_witness :
    (∀ r, List.lookup ("z_pk") ([(("z_pk"), PVal.ref 0)] : RDict)
        = some (PVal.ref r) → r < ([[1]] : Store).length)
  ∧ ∃ r, List.lookup ("z_pk")
        ((zpkStep [[1]] [(("z_pk"), PVal.ref 0)] []).2) = some (PVal.ref r)
      ∧ (0 : ℚ) ∈ getList (zpkStep [[1]] [(("z_pk"), PVal.ref 0)] []).1 r := by
  have hwf : ∀ r, List.lookup ("z_pk") ([(("z_pk"), PVal.ref 0)] : RDict)
      = some (PVal.ref r) → r < ([[1]] : Store).length := by
    intro r hr
    have h0 : PVal.ref 0 = PVal.ref r := by
      simpa using hr
    cases h0
    simp
  exact ⟨hwf, zpk_contains_zero [[1]] [(("z_pk"), PVal.ref 0)] [] hwf⟩

/-- Claim C10 (counterexample): cloning can mutate the base in place.  The
base holds `m_ncdm` as list object `0` with contents `[0.06]` and `z_pk`
as list object `1` with contents `[0, 1]`; the override passes the base's
own `m_ncdm` list object as its `z_pk` value.  The clone completes, and
the base's `m_ncdm` list contents have changed from `[0.06]` to
`[0.06, 0]`: the compilation of the clone appended `0` in place to the
aliased list. -/
theorem clone_aliasing_cex :
    getList [[(3 : ℚ)/50], [0, 1]] 0 = [3/50]
  ∧ getList (cloneModel [[(3 : ℚ)/50], [0, 1]]
      [(("m_ncdm"), PVal.ref 0), (("z_pk"), PVal.ref 1)]
      [(("z_pk"), PVal.ref 0)] []).1 0 = [3/50, 0] := by
  constructor
  · rfl
  · have hm : mergeParams
        ([(("m_ncdm"), PVal.ref 0), (("z_pk"), PVal.ref 1)] : RDict)
        [(("z_pk"), PVal.ref 0)]
        = [(("m_ncdm"), PVal.ref 0), (("z_pk"), PVal.ref 0)] := by
      rfl
    rw [cloneModel, hm]
    have hl : List.lookup ("z_pk")
        ([(("m_ncdm"), PVal.ref 0), (("z_pk"), PVal.ref 0)] : RDict)
        = some (PVal.ref 0) := by
      rfl
    have h0 : ¬((0 : ℚ) ∈ getList [[(3 : ℚ)/50], [0, 1]] 0) := by
      rw [show getList [[(3 : ℚ)/50], [0, 1]] 0 = [3/50] from rfl]
      norm_num
    simp only [zpkStep, hl, if_neg h0]
    rw [show getList [[(3 : ℚ)/50], [0, 1]] 0 = [3/50] from rfl]
    rfl

/-- Claim C10 (amended): cloning leaves every list reachable from the base
unchanged provided the merged dictionary's `z_pk` is not a reference to a
base list lacking `0` — in particular whenever the base's `z_pk` invariant
(`0` present, guaranteed for a compiled base) holds and the override does
not alias one of the base's other stored lists as its `z_pk`.  The only
store mutation of the clone path is the in-place append of `0` to the
merged `z_pk` list. -/
theorem clone_preserves_base_params (σ : Store) (base override : RDict)
    (defZ : List ℚ) (n : String) (r : ℕ)
    (hmem : (n, PVal.ref r) ∈ base) (hr : r < σ.length)
    (hsafe : (0 : ℚ) ∈ getList σ r ∨
      List.lookup ("z_pk") (mergeParams base override) ≠ some (PVal.ref r)) :
    getList (cloneModel σ base override defZ).1 r = getList σ r := by
  rw [cloneModel]
  cases hl : List.lookup ("z_pk") (mergeParams base override) with
  | none =>
      simp only [zpkStep, hl, alloc]
      exact getList_append_lt σ _ r hr
  | some v =>
      cases v with
      | num q =>
          simp only [zpkStep, hl, alloc]
          exact getList_append_lt σ _ r hr
      | ref r2 =>
          by_cases h0 : (0 : ℚ) ∈ getList σ r2
          · simp only [zpkStep, hl, if_pos h0]
          · simp only [zpkStep, hl, if_neg h0]
            by_cases hrr : r2 = r
            · subst hrr
              rcases hsafe with hz | hne
              · exact absurd hz h0
              · exact absurd hl hne
            · exact getList_set_ne σ _ r r2 hrr

/-- Witness for the amended C10 theorem: a compiled-like base whose `z_pk`
list contains `0`, cloned with an empty override. -/
theorem clone_preserves_base_params_witness :
    (((("z_pk"), PVal.ref 0) ∈ ([(("z_pk"), PVal.ref 0)] : RDict))
      ∧ 0 < ([[(0 : ℚ)]] : Store).length
      ∧ (0 : ℚ) ∈ getList [[(0 : ℚ)]] 0)
  ∧ getList (cloneModel [[(0 : ℚ)]] [(("z_pk"), PVal.ref 0)] [] []).1 0
      = getList [[(0 : ℚ)]] 0 := by
  have hmem : ((("z_pk"), PVal.ref 0) ∈ ([(("z_pk"), PVal.ref 0)] : RDict)) := by
    simp
  have hr : 0 < ([[(0 : ℚ)]] : Store).length := by simp
  have hz : (0 : ℚ) ∈ getList [[(0 : ℚ)]] 0 := by
    rw [show getList [[(0 : ℚ)]] 0 = [0] from rfl]
    simp
  exact ⟨⟨hmem, hr, hz⟩,
    clone_preserves_base_params [[(0 : ℚ)]] [(("z_pk"), PVal.ref 0)] [] []
      ("z_pk") 0 hmem hr (Or.inl hz)⟩
